import Mathlib

/-!
Verification development for the RSS feed-store core of `mrssilver/toolspc`
(`rss.go`): the `FeedItem` record type, the flat `FeedStore` (method `Add`,
`UpdateFeed`, `FetchAll`), and the per-source `PersistentStore` (methods
`AddItems`, `GetItems`, `cleanupBucket`, `save`, `load`,
`NewPersistentStore`).

Modelling conventions:
- Go `time.Time` / `time.Duration` are embedded as `Int` (nanosecond ticks);
  `t.IsZero()` becomes `t = 0`, `a.Before(b)` becomes `a < b`, `a.After(b)`
  becomes `b < a`.
- Go maps (`map[string]*FeedBucket`, `map[string]int`) are embedded as
  association lists with first-match lookup (`findAssoc`) and
  replace-or-append assignment (`setAssoc`).
- `sort.SliceStable` is embedded as the stable insertion sort `sortByKey`.
- File I/O is embedded explicitly: the on-disk file is a `DiskFile`; Go's
  `json.Marshal` of a map writes the object keys in sorted order, which
  `save` models by sorting the association list by key.
- The `sync.RWMutex` discipline is embedded as a small lock-state machine
  (`LockState`, `lockStep`) together with the exact sequence of lock
  operations each store method performs (`runLockOps`); a `none` result
  means the single goroutine executing the trace blocks forever.
-/

namespace ToolsPC

/-- Record stored for one RSS item (Go struct `FeedItem`). -/
structure FeedItem where
  feed : String
  title : String
  link : String
  published : Int
  added : Int
  id : String
  read : Bool
  starred : Bool
deriving DecidableEq, Repr

/-- Metadata of a feed bucket (Go struct `FeedMeta`). -/
structure FeedMeta where
  url : String
  title : String
  updated : Int
  etag : String
  lastFetch : Int
deriving DecidableEq, Repr

/-- Items plus metadata for a single feed (Go struct `FeedBucket`). -/
structure FeedBucket where
  items : List FeedItem
  meta : FeedMeta
deriving DecidableEq, Repr

/-- Per-source persistent store (Go struct `PersistentStore`): the bucket map
and the age limit. The `path` field and the mutex are modelled separately
(`DiskFile`, `LockState`). -/
structure PersistentStore where
  feeds : List (String × FeedBucket)
  maxAge : Int
deriving DecidableEq, Repr

/-- Flat single-list store (Go struct `FeedStore`): all items in one slice,
a per-feed cap, and the last-fetch time per URL. -/
structure FeedStore where
  items : List FeedItem
  maxItems : Int
  lastFetch : List (String × Int)
deriving DecidableEq, Repr

/-- First-match lookup in an association list (Go map read `m[k]`). -/
def findAssoc {α : Type} : List (String × α) → String → Option α
  | [], _ => none
  | (k, v) :: rest, key => if k = key then some v else findAssoc rest key

/-- Replace-or-append assignment in an association list (Go map write
`m[k] = v`). -/
def setAssoc {α : Type} : List (String × α) → String → α → List (String × α)
  | [], key, v => [(key, v)]
  | (k, w) :: rest, key, v =>
    if k = key then (key, v) :: rest else (k, w) :: setAssoc rest key v

/-- Stable insertion of `x` into `l`: `x` goes before the first element whose
key is not smaller, so an element inserted from the left stays before
key-equal elements. Together with `sortByKey` this models Go's
`sort.SliceStable`. -/
def insertStable {α β : Type} [LinearOrder β] (key : α → β) (x : α) :
    List α → List α
  | [] => [x]
  | y :: ys => if key x ≤ key y then x :: y :: ys else y :: insertStable key x ys

/-- Stable sort by the given key (model of `sort.SliceStable` with the
comparison `key a < key b`). -/
def sortByKey {α β : Type} [LinearOrder β] (key : α → β) (l : List α) : List α :=
  l.foldr (insertStable key) []

theorem mem_insertStable {α β : Type} [LinearOrder β] (key : α → β)
    (x a : α) (l : List α) :
    a ∈ insertStable key x l ↔ a = x ∨ a ∈ l := by
  induction l with
  | nil => simp [insertStable]
  | cons y ys ih =>
    by_cases h : key x ≤ key y
    · simp [insertStable, h]
    · simp only [insertStable, if_neg h, List.mem_cons, ih]
      tauto

theorem pairwise_insertStable {α β : Type} [LinearOrder β] (key : α → β)
    (x : α) (l : List α)
    (hl : l.Pairwise (fun a b => key a ≤ key b)) :
    (insertStable key x l).Pairwise (fun a b => key a ≤ key b) := by
  induction l with
  | nil => simp [insertStable]
  | cons y ys ih =>
    rw [List.pairwise_cons] at hl
    by_cases h : key x ≤ key y
    · rw [insertStable, if_pos h]
      refine List.Pairwise.cons ?_ (List.Pairwise.cons hl.1 hl.2)
      intro b hb
      rcases List.mem_cons.mp hb with hb | hb
      · subst hb
        exact h
      · exact le_trans h (hl.1 b hb)
    · rw [insertStable, if_neg h]
      refine List.Pairwise.cons ?_ (ih hl.2)
      intro b hb
      rcases (mem_insertStable key x b ys).mp hb with hb | hb
      · subst hb
        exact le_of_not_le h
      · exact hl.1 b hb

theorem pairwise_sortByKey {α β : Type} [LinearOrder β] (key : α → β)
    (l : List α) :
    (sortByKey key l).Pairwise (fun a b => key a ≤ key b) := by
  induction l with
  | nil => simp [sortByKey]
  | cons x xs ih => exact pairwise_insertStable key x _ ih

theorem perm_insertStable {α β : Type} [LinearOrder β] (key : α → β)
    (x : α) (l : List α) :
    List.Perm (insertStable key x l) (x :: l) := by
  induction l with
  | nil => simp [insertStable]
  | cons y ys ih =>
    by_cases h : key x ≤ key y
    · rw [insertStable, if_pos h]
    · rw [insertStable, if_neg h]
      exact List.Perm.trans (List.Perm.cons y ih) (List.Perm.swap x y ys)

theorem perm_sortByKey {α β : Type} [LinearOrder β] (key : α → β)
    (l : List α) :
    List.Perm (sortByKey key l) l := by
  induction l with
  | nil => simp [sortByKey]
  | cons x xs ih =>
    exact List.Perm.trans (perm_insertStable key x _) (List.Perm.cons x ih)

theorem filter_insertStable {α β : Type} [LinearOrder β] (key : α → β)
    (q : α → Bool) (x : α) (l : List α)
    (hq : ∀ a b, q a = true → q b = true → key a = key b) :
    (insertStable key x l).filter q = (x :: l).filter q := by
  induction l with
  | nil => simp [insertStable]
  | cons y ys ih =>
    by_cases h : key x ≤ key y
    · rw [insertStable, if_pos h]
    · rw [insertStable, if_neg h]
      cases hx : q x with
      | true =>
        have hy : q y = false := by
          cases hqy : q y with
          | false => rfl
          | true => exact absurd (le_of_eq (hq x y hx hqy)) h
        simp [List.filter_cons, hx, hy, ih]
      | false =>
        cases hy : q y with
        | true => simp [List.filter_cons, hx, hy, ih]
        | false => simp [List.filter_cons, hx, hy, ih]

theorem filter_sortByKey {α β : Type} [LinearOrder β] (key : α → β)
    (q : α → Bool) (l : List α)
    (hq : ∀ a b, q a = true → q b = true → key a = key b) :
    (sortByKey key l).filter q = l.filter q := by
  induction l with
  | nil => rfl
  | cons x xs ih =>
    have hfold : sortByKey key (x :: xs) = insertStable key x (sortByKey key xs) := rfl
    rw [hfold, filter_insertStable key q x _ hq]
    cases hx : q x with
    | true => simp [List.filter_cons, hx, ih]
    | false => simp [List.filter_cons, hx, ih]

theorem insertStable_sorted_head {α β : Type} [LinearOrder β] (key : α → β)
    (x : α) (l : List α) (h : ∀ b ∈ l, key x ≤ key b) :
    insertStable key x l = x :: l := by
  cases l with
  | nil => rfl
  | cons y ys => rw [insertStable, if_pos (h y (List.mem_cons_self y ys))]

theorem sortByKey_eq_of_sorted {α β : Type} [LinearOrder β] (key : α → β)
    (l : List α) (hl : l.Pairwise (fun a b => key a ≤ key b)) :
    sortByKey key l = l := by
  induction l with
  | nil => rfl
  | cons x xs ih =>
    rw [List.pairwise_cons] at hl
    show insertStable key x (sortByKey key xs) = x :: xs
    rw [ih hl.2]
    exact insertStable_sorted_head key x xs hl.1

/-- Sort items ascending by `published` (the `sort.SliceStable` call in
`FeedStore.Add`, `PersistentStore.AddItems` and `GetAllItems`). -/
def sortByPub (l : List FeedItem) : List FeedItem :=
  sortByKey (fun i => i.published) l

/-- The dedup-append loop shared by `FeedStore.Add` and
`PersistentStore.AddItems`: walk the candidate items, skip any whose `id` is
already in the `existing` set, append the rest while extending the set. -/
def addNew (existing : List String) : List FeedItem → List FeedItem
  | [] => []
  | item :: rest =>
    if item.id ∈ existing then addNew existing rest
    else item :: addNew (item.id :: existing) rest

/-- Go method `PersistentStore.cleanupBucket`, lifted to the item list: when
`maxAge > 0`, keep exactly the items with `item.Published.After(cutoff)` where
`cutoff = now - maxAge` (strict `>`); otherwise leave the list alone. -/
def cleanupBucket (maxAge now : Int) (items : List FeedItem) : List FeedItem :=
  if maxAge ≤ 0 then items
  else items.filter (fun item => decide (now - maxAge < item.published))

/-- The bucket `PersistentStore.AddItems` creates when `feedURL` has none:
empty items, `Meta.URL = feedURL`, `Meta.LastFetch = now`, all other meta
fields zero-valued. -/
def newBucket (feedURL : String) (now : Int) : FeedBucket :=
  { items := [],
    meta := { url := feedURL, title := "", updated := 0, etag := "",
              lastFetch := now } }

/-- Go method `PersistentStore.AddItems` (in-memory effect): look up or create
the bucket, drop candidates whose `id` already exists, append the survivors,
stable-sort by `published`, run `cleanupBucket`, refresh `Meta.LastFetch`,
lazily set `Meta.Title` from the first candidate, and store the bucket back.
The disk write performed by `s.save()` is modelled by `save` below, and the
lock operations the method issues are modelled by `addItemsLockOps`. -/
def AddItems (s : PersistentStore) (feedURL : String) (items : List FeedItem)
    (now : Int) : PersistentStore :=
  let bucket :=
    match findAssoc s.feeds feedURL with
    | some b => b
    | none => newBucket feedURL now
  let existing := bucket.items.map (fun item => item.id)
  let appended := bucket.items ++ addNew existing items
  let sorted := sortByPub appended
  let cleaned := cleanupBucket s.maxAge now sorted
  let title :=
    match items with
    | [] => bucket.meta.title
    | first :: _ => if bucket.meta.title = "" then first.feed else bucket.meta.title
  let bucket2 : FeedBucket :=
    { items := cleaned,
      meta := { bucket.meta with title := title, lastFetch := now } }
  { s with feeds := setAssoc s.feeds feedURL bucket2 }

/-- Items of the bucket stored under `url` (empty when the bucket is absent). -/
def storeBucketItems (s : PersistentStore) (url : String) : List FeedItem :=
  match findAssoc s.feeds url with
  | some b => b.items
  | none => []

/-- Go method `PersistentStore.GetItems`: copy the bucket's items, skipping an
item exactly when `!since.IsZero() && item.Published.Before(since)` holds;
then, when `limit > 0` and the result is longer than `limit`, keep only the
tail slice `result[len(result)-limit:]`. -/
def GetItems (s : PersistentStore) (feedURL : String) (limit since : Int) :
    List FeedItem :=
  match findAssoc s.feeds feedURL with
  | none => []
  | some bucket =>
    let result := bucket.items.filter
      (fun item => decide (¬ (since ≠ 0 ∧ item.published < since)))
    if 0 < limit ∧ limit < (result.length : Int) then
      result.drop (result.length - limit.toNat)
    else result

/-- Modelled from the spec's words, for comparison with `GetItems`: a copy of
the bucket's items filtered to `published ≥ since` when `since` is set, then
the most recent `limit` entries (the tail of the ascending sequence) when
`limit > 0`. -/
def getItemsSpec (s : PersistentStore) (feedURL : String) (limit since : Int) :
    List FeedItem :=
  match findAssoc s.feeds feedURL with
  | none => []
  | some bucket =>
    let kept :=
      if since = 0 then bucket.items
      else bucket.items.filter (fun item => decide (since ≤ item.published))
    if 0 < limit then kept.drop (kept.length - limit.toNat) else kept

/-- Go method `PersistentStore.save`, as the value written to disk: Go's
`json.Marshal` serialises a `map[string]*FeedBucket` as an object whose keys
appear in sorted order, so the serialised store is the association list
sorted by key. -/
def save (s : PersistentStore) : List (String × FeedBucket) :=
  sortByKey (fun p => p.1) s.feeds

/-- On-disk states distinguished by `PersistentStore.load`: no file
(`os.IsNotExist`), a file `json.Unmarshal` rejects (with its error message),
or a file that decodes to a bucket map. -/
inductive DiskFile where
  | missing : DiskFile
  | corrupt : String → DiskFile
  | valid : List (String × FeedBucket) → DiskFile
deriving DecidableEq, Repr

/-- Go method `PersistentStore.load`: a missing file leaves the empty map in
place and returns nil; a corrupt file returns the `json.Unmarshal` error; a
valid file returns the decoded bucket map. -/
def load : DiskFile → Except String (List (String × FeedBucket))
  | .missing => .ok []
  | .corrupt msg => .error msg
  | .valid feeds => .ok feeds

/-- Go constructor `NewPersistentStore`: build the store with an empty bucket
map, run `load`, and propagate its error, returning the loaded store on
success. -/
def NewPersistentStore (file : DiskFile) (maxAge : Int) :
    Except String PersistentStore :=
  match load file with
  | .error e => .error e
  | .ok feeds => .ok { feeds := feeds, maxAge := maxAge }

/-- Go method `FeedStore.uniqueFeeds`, as a list of distinct feed names. The
Go function returns a `map[string]bool`, whose size is all `Add` uses; the
model keeps first-occurrence order. -/
def uniqueFeeds (items : List FeedItem) : List String :=
  items.foldl (fun acc item => if item.feed ∈ acc then acc else acc ++ [item.feed]) []

/-- The per-feed tail cap inside `FeedStore.truncatePerFeed`:
`if len(items) > maxItems { items = items[len(items)-maxItems:] }`. -/
def capTail (maxItems : Int) (items : List FeedItem) : List FeedItem :=
  if maxItems < (items.length : Int) then
    items.drop (items.length - maxItems.toNat)
  else items

/-- Go method `FeedStore.truncatePerFeed`: group items by feed, stable-sort
each group by `published`, keep only the newest `maxItems` of each group,
concatenate the groups and stable-sort the result. Go iterates the group map
in unspecified order; the model fixes one admissible order (first occurrence
of each feed name), which only affects the relative order of items from
different feeds with equal `published`. -/
def truncatePerFeed (maxItems : Int) (items : List FeedItem) : List FeedItem :=
  let feeds := uniqueFeeds items
  let groups := feeds.map
    (fun f => capTail maxItems (sortByPub (items.filter (fun i => decide (i.feed = f)))))
  sortByPub groups.flatten

/-- Go method `FeedStore.Add` (in-memory effect): dedup-append the candidate
items, stable-sort by `published`, apply `truncatePerFeed`, then apply the
flat global cap `maxItems * len(uniqueFeeds())`. The disk write of `s.save()`
is outside this pure model. -/
def Add (s : FeedStore) (items : List FeedItem) : FeedStore :=
  let existing := s.items.map (fun item => item.id)
  let appended := s.items ++ addNew existing items
  let sorted := sortByPub appended
  let truncated := truncatePerFeed s.maxItems sorted
  let cap := s.maxItems * ((uniqueFeeds truncated).length : Int)
  let final :=
    if cap < (truncated.length : Int) then
      truncated.drop (truncated.length - cap.toNat)
    else truncated
  { s with items := final }

/-- Go method `FeedStore.UpdateFeed`: fetch and parse the feed (the network
and parser are the oracle `fetch`), propagate a fetch error, otherwise `Add`
the parsed items, record the fetch time, and return `len(items)` — the number
of records parsed from the payload. -/
def UpdateFeed (fetch : String → Except String (List FeedItem))
    (s : FeedStore) (url : String) (now : Int) :
    Except String (Nat × FeedStore) :=
  match fetch url with
  | .error e => .error e
  | .ok items =>
    let s1 := Add s items
    .ok (items.length, { s1 with lastFetch := setAssoc s1.lastFetch url now })

/-- Go method `Fetcher.FetchAll` (one admissible interleaving: tasks complete
in launch order): each source runs `UpdateFeed` independently; a success adds
its items to the store and records `stats[url] = count`; a failure appends
`"url: err"` to the error channel and touches nothing else. Returns the final
store, the stats, and the collected errors in order. -/
def FetchAll (fetch : String → Except String (List FeedItem))
    (s : FeedStore) (urls : List String) (now : Int) :
    FeedStore × List (String × Nat) × List String :=
  match urls with
  | [] => (s, [], [])
  | u :: rest =>
    match UpdateFeed fetch s u now with
    | .ok (count, s1) =>
      let r := FetchAll fetch s1 rest now
      (r.1, (u, count) :: r.2.1, r.2.2)
    | .error e =>
      let r := FetchAll fetch s rest now
      (r.1, r.2.1, (u ++ ": " ++ e) :: r.2.2)

/-- The error value `Fetcher.FetchAll` hands back to its caller after
`wg.Wait()`: the first error drained from the channel, `nil` when every
source succeeded. -/
def FetchAllError (fetch : String → Except String (List FeedItem))
    (s : FeedStore) (urls : List String) (now : Int) : Option String :=
  (FetchAll fetch s urls now).2.2.head?

/-- Operations on a Go `sync.RWMutex`. -/
inductive LockOp where
  | lock : LockOp
  | unlock : LockOp
  | rlock : LockOp
  | runlock : LockOp
deriving DecidableEq, Repr

/-- State of a Go `sync.RWMutex`: whether a writer holds it and how many
readers hold it. -/
structure LockState where
  writer : Bool
  readers : Nat
deriving DecidableEq, Repr

/-- The mutex with no holders. -/
def unlockedState : LockState := { writer := false, readers := 0 }

/-- Semantics of one `sync.RWMutex` operation executed by a goroutine:
`Lock` needs no writer and no readers, `RLock` needs no writer (Go's RWMutex
is not reentrant), and `none` means the operation blocks. -/
def lockStep (st : LockState) : LockOp → Option LockState
  | .lock =>
    if st.writer = false ∧ st.readers = 0 then some { writer := true, readers := st.readers }
    else none
  | .unlock =>
    if st.writer then some { writer := false, readers := st.readers } else none
  | .rlock =>
    if st.writer = false then some { st with readers := st.readers + 1 } else none
  | .runlock =>
    if 0 < st.readers then some { st with readers := st.readers - 1 } else none

/-- Run a sequence of lock operations issued by a single goroutine with no
other goroutine touching the mutex; `none` means the goroutine blocked and,
since only it could change the lock state, blocks forever. -/
def runLockOps : LockState → List LockOp → Option LockState
  | st, [] => some st
  | st, op :: ops =>
    match lockStep st op with
    | some st2 => runLockOps st2 ops
    | none => none

/-- Lock operations `PersistentStore.AddItems` issues, in program order:
`s.mu.Lock()` on entry, then — before the deferred `s.mu.Unlock()` runs —
`return s.save()` executes `save`, which issues `s.mu.RLock()` and its
deferred `s.mu.RUnlock()` on the same mutex. -/
def addItemsLockOps : List LockOp := [.lock, .rlock, .runlock, .unlock]

/-- Lock operations `PersistentStore.GetItems` (and `GetAllItems`) issue:
`s.mu.RLock()` and the deferred `s.mu.RUnlock()`. -/
def getItemsLockOps : List LockOp := [.rlock, .runlock]

theorem findAssoc_setAssoc {α : Type} (l : List (String × α)) (k : String)
    (v : α) (k2 : String) :
    findAssoc (setAssoc l k v) k2 = if k2 = k then some v else findAssoc l k2 := by
  induction l with
  | nil =>
    by_cases h : k2 = k
    · subst h
      simp [setAssoc, findAssoc]
    · simp [setAssoc, findAssoc, h, Ne.symm h]
  | cons p rest ih =>
    obtain ⟨k1, v1⟩ := p
    by_cases h1 : k1 = k
    · subst h1
      by_cases h2 : k2 = k1
      · subst h2
        simp [setAssoc, findAssoc]
      · simp [setAssoc, findAssoc, h2, Ne.symm h2]
    · by_cases h2 : k1 = k2
      · subst h2
        simp [setAssoc, findAssoc, h1]
      · simp [setAssoc, findAssoc, h1, h2, ih]

theorem storeBucketItems_AddItems (s : PersistentStore) (url : String)
    (items : List FeedItem) (now : Int) :
    storeBucketItems (AddItems s url items now) url
      = cleanupBucket s.maxAge now
          (sortByPub (storeBucketItems s url
            ++ addNew ((storeBucketItems s url).map (fun i => i.id)) items)) := by
  unfold AddItems storeBucketItems
  cases hfind : findAssoc s.feeds url with
  | none => simp [hfind, findAssoc_setAssoc, newBucket]
  | some b => simp [hfind, findAssoc_setAssoc]

theorem sortByPub_def (l : List FeedItem) :
    sortByPub l = sortByKey (fun i : FeedItem => i.published) l := rfl

theorem findAssoc_AddItems_ne (s : PersistentStore) (url : String)
    (items : List FeedItem) (now : Int) (u2 : String) (hne : u2 ≠ url) :
    findAssoc (AddItems s url items now).feeds u2 = findAssoc s.feeds u2 := by
  unfold AddItems
  rw [findAssoc_setAssoc]
  exact if_neg hne

theorem addNew_skip (existing : List String) (rec0 : FeedItem)
    (rest : List FeedItem) (h : rec0.id ∈ existing) :
    addNew existing (rec0 :: rest) = addNew existing rest := by
  simp [addNew, h]

theorem addNew_ids (existing : List String) (items : List FeedItem) :
    ((addNew existing items).map (fun i => i.id)).Nodup
      ∧ ∀ a ∈ (addNew existing items).map (fun i => i.id), a ∉ existing := by
  induction items generalizing existing with
  | nil => simp [addNew]
  | cons item rest ih =>
    by_cases h : item.id ∈ existing
    · simpa [addNew, h] using ih existing
    · have ihx := ih (item.id :: existing)
      constructor
      · rw [addNew, if_neg h]
        refine List.Nodup.cons ?_ ihx.1
        intro hmem
        exact (ihx.2 item.id hmem) (List.mem_cons_self item.id existing)
      · intro a ha
        rw [addNew, if_neg h] at ha
        rcases List.mem_cons.mp ha with ha | ha
        · subst ha
          exact h
        · intro hmem
          exact (ihx.2 a ha) (List.mem_cons_of_mem _ hmem)

theorem findAssoc_eq_filter_head {α : Type} (l : List (String × α)) (k : String) :
    findAssoc l k = ((l.filter (fun p => decide (p.1 = k))).head?).map (fun p => p.2) := by
  induction l with
  | nil => simp [findAssoc]
  | cons p rest ih =>
    obtain ⟨k1, v1⟩ := p
    by_cases h : k1 = k
    · simp [findAssoc, List.filter_cons, h]
    · simp [findAssoc, List.filter_cons, h, ih]

theorem findAssoc_sortByKey_fst {α : Type} (l : List (String × α)) (k : String) :
    findAssoc (sortByKey (fun p => p.1) l) k = findAssoc l k := by
  rw [findAssoc_eq_filter_head, findAssoc_eq_filter_head]
  have h := filter_sortByKey (fun p : String × α => p.1)
    (fun p => decide (p.1 = k)) l
    (by
      intro a b ha hb
      have ha2 := of_decide_eq_true ha
      have hb2 := of_decide_eq_true hb
      show a.1 = b.1
      rw [ha2, hb2])
  rw [h]

theorem pairwise_cleanupBucket (maxAge now : Int) (items : List FeedItem)
    (h : items.Pairwise (fun a b => a.published ≤ b.published)) :
    (cleanupBucket maxAge now items).Pairwise (fun a b => a.published ≤ b.published) := by
  unfold cleanupBucket
  by_cases hage : maxAge ≤ 0
  · simpa [hage] using h
  · rw [if_neg hage]
    exact List.Pairwise.sublist (List.filter_sublist _) h

theorem nodup_ids_cleanupBucket (maxAge now : Int) (items : List FeedItem)
    (h : (items.map (fun i => i.id)).Nodup) :
    ((cleanupBucket maxAge now items).map (fun i => i.id)).Nodup := by
  unfold cleanupBucket
  by_cases hage : maxAge ≤ 0
  · simpa [hage] using h
  · rw [if_neg hage]
    exact List.Nodup.sublist (List.Sublist.map _ (List.filter_sublist _)) h

theorem nodup_ids_sortByPub (items : List FeedItem)
    (h : (items.map (fun i => i.id)).Nodup) :
    ((sortByPub items).map (fun i => i.id)).Nodup := by
  exact (List.Perm.nodup_iff
    (List.Perm.map (fun i => i.id) (perm_sortByKey (fun i => i.published) items))).mpr h

/-- Concrete record used by the closed theorems: feed `"F"`, `id` and title
equal to `ident`, and the given `published` time. -/
def demoItem (ident : String) (pub : Int) : FeedItem :=
  { feed := "F", title := ident, link := "", published := pub, added := 0,
    id := ident, read := false, starred := false }

/-- A freshly constructed `PersistentStore` with no age limit. -/
def emptyPS : PersistentStore := { feeds := [], maxAge := 0 }

/-- A freshly constructed `FeedStore` with the default per-feed cap 100. -/
def emptyFS : FeedStore := { items := [], maxItems := 100, lastFetch := [] }

/-- Fetch oracle for the failure-isolation scenario: sources 1 and 3 parse to
one record each, source 2 fails. -/
def demoFetch3 : String → Except String (List FeedItem) := fun u =>
  if u = "src1" then .ok [demoItem "a" 1]
  else if u = "src2" then .error "boom"
  else if u = "src3" then .ok [demoItem "c" 3]
  else .error "unknown"

/-- C1. The claim says a bucket's length never exceeds `maxItems` after
`AddItems`, the oldest records being evicted (spec scenario: `maxItems = 2`,
add `{id a, published 1}`, then `{id b, published 2}` and `{id c,
published 3}` to the same source, expecting the final bucket `[b, c]`). The
code violates this: `PersistentStore` has no `maxItems` field and `AddItems`
applies no count cap — only `cleanupBucket`'s age filter — so the bucket ends
as `[a, b, c]` with length 3 and nothing is ever evicted by count. -/
theorem C1_persistentStore_no_count_cap :
    storeBucketItems
        (AddItems (AddItems emptyPS "u" [demoItem "a" 1] 10) "u"
          [demoItem "b" 2, demoItem "c" 3] 20) "u"
      = [demoItem "a" 1, demoItem "b" 2, demoItem "c" 3]
    ∧ (storeBucketItems
        (AddItems (AddItems emptyPS "u" [demoItem "a" 1] 10) "u"
          [demoItem "b" 2, demoItem "c" 3] 20) "u").length = 3 := by
  constructor
  · rfl
  · rfl

/-- C2 counterexample. The claim says constructing the store never fails: a
corrupt (undecodable) file is tolerated by falling back to an empty store.
In the code `PersistentStore.load` returns the `json.Unmarshal` error and
`NewPersistentStore` propagates it, so construction on a corrupt file fails
with that error instead of yielding any store. -/
theorem C2_corrupt_file_fails_construction :
    NewPersistentStore (DiskFile.corrupt "invalid json") 0
      = Except.error "invalid json"
    ∧ (NewPersistentStore (DiskFile.corrupt "invalid json") 0).toOption
      = none := by
  exact ⟨rfl, rfl⟩

/-- C2 amended. Construction by loading the on-disk file yields a valid empty
store when the file is missing, but a corrupt (undecodable) file makes
`NewPersistentStore` return the decode error rather than falling back to an
empty store. -/
theorem C2_load_missing_empty_corrupt_error :
    (∀ maxAge : Int,
      NewPersistentStore DiskFile.missing maxAge
        = Except.ok { feeds := [], maxAge := maxAge })
    ∧ (∀ (msg : String) (maxAge : Int),
      NewPersistentStore (DiskFile.corrupt msg) maxAge = Except.error msg) := by
  constructor
  · intro maxAge
    rfl
  · intro msg maxAge
    rfl

/-- C3 counterexample. The claim says the update operation reports the
per-source count of new items actually added (surviving deduplication), not
the number of records parsed. With a store already holding the record of id
`"a"` and a fetch that parses that same record again, `UpdateFeed` reports 1
while the store is left with exactly its old single item — zero items were
added. -/
theorem C3_reported_count_not_added_count :
    UpdateFeed (fun _ => Except.ok [demoItem "a" 1])
        { items := [demoItem "a" 1], maxItems := 100, lastFetch := [] } "u" 9
      = Except.ok (1,
          { items := [demoItem "a" 1], maxItems := 100, lastFetch := [("u", 9)] })
    ∧ ({ items := [demoItem "a" 1], maxItems := 100,
         lastFetch := [("u", 9)] } : FeedStore).items.length
        - ({ items := [demoItem "a" 1], maxItems := 100,
             lastFetch := [] } : FeedStore).items.length = 0
    ∧ (1 : Nat) ≠ 0 := by
  refine ⟨rfl, rfl, ?_⟩
  decide

/-- C3 amended. For every source whose fetch succeeds, `UpdateFeed` reports
`len(items)` — the number of records parsed from the fetched payload — and
applies `Add` (which deduplicates) to the store; the reported count is the
parsed count, not the number of records surviving deduplication. -/
theorem C3_updateFeed_reports_parsed_count
    (fetch : String → Except String (List FeedItem)) (s : FeedStore)
    (url : String) (now : Int) (items : List FeedItem) (count : Nat)
    (s2 : FeedStore)
    (hfetch : fetch url = Except.ok items)
    (hrun : UpdateFeed fetch s url now = Except.ok (count, s2)) :
    count = items.length ∧ s2.items = (Add s items).items := by
  rw [UpdateFeed, hfetch] at hrun
  have h1 : count = items.length := by
    have := congrArg (fun r => match r with
      | Except.ok (c, _) => c
      | Except.error _ => 0) hrun
    simpa using this.symm
  have h2 : s2 = { Add s items with
      lastFetch := setAssoc (Add s items).lastFetch url now } := by
    have := congrArg (fun r => match r with
      | Except.ok (_, st) => st
      | Except.error _ => s) hrun
    simpa using this.symm
  exact ⟨h1, by rw [h2]⟩

/-- C3 amended witness: the amended theorem applied at a concrete fetch that
parses one already-stored record. -/
theorem C3_updateFeed_reports_parsed_count_witness :
    (1 : Nat) = [demoItem "a" 1].length
    ∧ ({ items := [demoItem "a" 1], maxItems := 100,
         lastFetch := [("u", 9)] } : FeedStore).items
        = (Add { items := [demoItem "a" 1], maxItems := 100, lastFetch := [] }
            [demoItem "a" 1]).items :=
  C3_updateFeed_reports_parsed_count
    (fun _ => Except.ok [demoItem "a" 1])
    { items := [demoItem "a" 1], maxItems := 100, lastFetch := [] }
    "u" 9 [demoItem "a" 1] 1
    { items := [demoItem "a" 1], maxItems := 100, lastFetch := [("u", 9)] }
    rfl rfl

/-- C7 counterexample. The claim says age-based cleanup retains records
published exactly at the cutoff `now - maxAge`. The code keeps an item only
when `item.Published.After(cutoff)` — strictly later — so with `maxAge = 10`,
`now = 100` (cutoff 90) an item published exactly at 90 is removed. -/
theorem C7_cleanup_drops_item_at_cutoff :
    cleanupBucket 10 100 [demoItem "x" 90] = []
    ∧ cleanupBucket 10 100 [demoItem "x" 90] ≠ [demoItem "x" 90]
    ∧ (demoItem "x" 90).published = 100 - 10 := by
  refine ⟨rfl, ?_, rfl⟩
  intro h
  exact List.noConfusion h

/-- C9. Failure isolation in `FetchAll`: a single source's failure does not
abort the other fetches. Generally, the collected error list and the recorded
per-source stats depend only on each source's own fetch outcome; concretely,
with 3 sources of which the second fails, the items of the other two are
added to the store, stats record both successes, exactly one failure is
collected, and that first recorded error is what `FetchAll` returns after all
tasks finish. -/
theorem C9_fetchAll_failure_isolation :
    (∀ (fetch : String → Except String (List FeedItem)) (s : FeedStore)
        (urls : List String) (now : Int),
      (FetchAll fetch s urls now).2.2
          = urls.filterMap (fun u =>
              match fetch u with
              | .error e => some (u ++ ": " ++ e)
              | .ok _ => none)
        ∧ (FetchAll fetch s urls now).2.1
          = urls.filterMap (fun u =>
              match fetch u with
              | .ok items => some (u, items.length)
              | .error _ => none))
    ∧ (FetchAll demoFetch3 emptyFS ["src1", "src2", "src3"] 7).1.items
        = [demoItem "a" 1, demoItem "c" 3]
    ∧ (FetchAll demoFetch3 emptyFS ["src1", "src2", "src3"] 7).2.1
        = [("src1", 1), ("src3", 1)]
    ∧ (FetchAll demoFetch3 emptyFS ["src1", "src2", "src3"] 7).2.2
        = ["src2: boom"]
    ∧ FetchAllError demoFetch3 emptyFS ["src1", "src2", "src3"] 7
        = some "src2: boom" := by
  refine ⟨?_, rfl, rfl, rfl, rfl⟩
  intro fetch s urls now
  induction urls generalizing s with
  | nil => exact ⟨rfl, rfl⟩
  | cons u rest ih =>
    cases hu : fetch u with
    | ok items =>
      constructor
      · simpa [FetchAll, UpdateFeed, hu] using
          (ih { Add s items with
            lastFetch := setAssoc (Add s items).lastFetch u now }).1
      · simpa [FetchAll, UpdateFeed, hu] using
          (ih { Add s items with
            lastFetch := setAssoc (Add s items).lastFetch u now }).2
    | error e =>
      constructor
      · simpa [FetchAll, UpdateFeed, hu] using (ih s).1
      · simpa [FetchAll, UpdateFeed, hu] using (ih s).2

/-- C10. The claim says every store operation completes under the
reader/writer lock discipline, in particular `AddItems`, which holds the
writer lock while its persistence sub-step takes the reader lock on the same
mutex. On a Go `sync.RWMutex` (not reentrant: a writer blocks all new
readers) the exact operation sequence `AddItems` issues — `Lock`, then
`save`'s `RLock` before the deferred `Unlock` — blocks at the `RLock` and
never returns, while the read-only trace of `GetItems`/`GetAllItems` and a
plain `Lock`/`Unlock` pair both complete. -/
theorem C10_addItems_lock_trace_deadlocks :
    runLockOps unlockedState addItemsLockOps = none
    ∧ runLockOps unlockedState getItemsLockOps = some unlockedState
    ∧ runLockOps unlockedState [LockOp.lock, LockOp.unlock] = some unlockedState
    ∧ runLockOps unlockedState [LockOp.lock] = some { writer := true, readers := 0 }
    ∧ lockStep { writer := true, readers := 0 } LockOp.rlock = none := by
  refine ⟨rfl, rfl, rfl, rfl, rfl⟩

/-- A store holding one bucket under `"u"` with the single record of id
`"a"`, used to witness the dedup claims. -/
def storeA : PersistentStore :=
  { feeds := [("u",
      { items := [demoItem "a" 1],
        meta := { url := "u", title := "F", updated := 0, etag := "",
                  lastFetch := 0 } })],
    maxAge := 0 }

/-- C4. Deduplication in `AddItems` is a no-op for known ids: (1) a candidate
record whose `id` already exists in the bucket contributes nothing — the
result equals the result of the same call without that candidate; (2) with
the bucket sorted (the store invariant) and no age limit, adding only a
known-id record leaves the bucket's items — hence its length and the stored
record for that id — entirely unchanged; (3) `AddItems` preserves uniqueness
of `id` values within the bucket. -/
theorem C4_duplicate_id_noop :
    (∀ (s : PersistentStore) (url : String) (rec0 : FeedItem)
        (rest : List FeedItem) (now : Int),
      rec0.id ∈ (storeBucketItems s url).map (fun i => i.id) →
      storeBucketItems (AddItems s url (rec0 :: rest) now) url
        = storeBucketItems (AddItems s url rest now) url)
    ∧ (∀ (s : PersistentStore) (url : String) (b : FeedBucket)
        (rec0 : FeedItem) (now : Int),
      findAssoc s.feeds url = some b →
      b.items.Pairwise (fun a c => a.published ≤ c.published) →
      rec0.id ∈ b.items.map (fun i => i.id) →
      s.maxAge ≤ 0 →
      storeBucketItems (AddItems s url [rec0] now) url = b.items)
    ∧ (∀ (s : PersistentStore) (url : String) (items : List FeedItem)
        (now : Int),
      ((storeBucketItems s url).map (fun i => i.id)).Nodup →
      ((storeBucketItems (AddItems s url items now) url).map
        (fun i => i.id)).Nodup) := by
  refine ⟨?_, ?_, ?_⟩
  · intro s url rec0 rest now hmem
    rw [storeBucketItems_AddItems, storeBucketItems_AddItems,
      addNew_skip _ _ _ hmem]
  · intro s url b rec0 now hfind hsorted hmem hage
    have hitems : storeBucketItems s url = b.items := by
      simp [storeBucketItems, hfind]
    rw [storeBucketItems_AddItems, hitems, addNew_skip _ _ _ hmem]
    show cleanupBucket s.maxAge now (sortByPub (b.items ++ addNew _ [])) = b.items
    rw [show addNew (b.items.map (fun i => i.id)) [] = [] from rfl,
      List.append_nil]
    have hsort : sortByPub b.items = b.items := by
      rw [sortByPub_def]
      exact sortByKey_eq_of_sorted (fun i : FeedItem => i.published) b.items hsorted
    rw [hsort, cleanupBucket, if_pos hage]
  · intro s url items now hnodup
    rw [storeBucketItems_AddItems]
    apply nodup_ids_cleanupBucket
    apply nodup_ids_sortByPub
    rw [List.map_append, List.nodup_append]
    refine ⟨hnodup, (addNew_ids _ _).1, ?_⟩
    intro a ha hb
    exact (addNew_ids ((storeBucketItems s url).map (fun i => i.id)) items).2
      a hb ha

/-- C4 witness: the three parts of the no-op theorem applied to the concrete
store holding the single record of id `"a"`. -/
theorem C4_duplicate_id_noop_witness :
    storeBucketItems (AddItems storeA "u" [demoItem "a" 5, demoItem "d" 4] 0) "u"
        = storeBucketItems (AddItems storeA "u" [demoItem "d" 4] 0) "u"
    ∧ storeBucketItems (AddItems storeA "u" [demoItem "a" 5] 0) "u"
        = [demoItem "a" 1]
    ∧ ((storeBucketItems (AddItems storeA "u" [demoItem "a" 5, demoItem "e" 9] 0)
        "u").map (fun i => i.id)).Nodup := by
  refine ⟨?_, ?_, ?_⟩
  · exact C4_duplicate_id_noop.1 storeA "u" (demoItem "a" 5) [demoItem "d" 4] 0
      (by decide)
  · exact C4_duplicate_id_noop.2.1 storeA "u"
      { items := [demoItem "a" 1],
        meta := { url := "u", title := "F", updated := 0, etag := "",
                  lastFetch := 0 } }
      (demoItem "a" 5) 0 rfl (by decide) (by decide) (by decide)
  · exact C4_duplicate_id_noop.2.2 storeA "u" [demoItem "a" 5, demoItem "e" 9] 0
      (by decide)

/-- C5. After any `AddItems` call the touched bucket is stable-sorted
ascending by `published` and every untouched bucket keeps the invariant, so
every bucket reachable by a sequence of `AddItems` calls is sorted; moreover
(ties) when no age limit is set, for every timestamp `t` the records with
`published = t` appear in exactly their original insertion order — the order
of the old bucket contents followed by the surviving candidates. -/
theorem C5_bucket_sorted_stable :
    (∀ (s : PersistentStore) (url : String) (items : List FeedItem) (now : Int)
        (u2 : String) (b : FeedBucket),
      (∀ (u0 : String) (b0 : FeedBucket), findAssoc s.feeds u0 = some b0 →
        b0.items.Pairwise (fun a c => a.published ≤ c.published)) →
      findAssoc (AddItems s url items now).feeds u2 = some b →
      b.items.Pairwise (fun a c => a.published ≤ c.published))
    ∧ (∀ (s : PersistentStore) (url : String) (items : List FeedItem)
        (now t : Int),
      s.maxAge ≤ 0 →
      (storeBucketItems (AddItems s url items now) url).filter
          (fun i => decide (i.published = t))
        = (storeBucketItems s url
            ++ addNew ((storeBucketItems s url).map (fun i => i.id)) items).filter
          (fun i => decide (i.published = t))) := by
  constructor
  · intro s url items now u2 b hinv hfind
    by_cases heq : u2 = url
    · subst heq
      have hb : b.items
          = cleanupBucket s.maxAge now
              (sortByPub (storeBucketItems s u2
                ++ addNew ((storeBucketItems s u2).map (fun i => i.id)) items)) := by
        have h2 := storeBucketItems_AddItems s u2 items now
        rw [storeBucketItems, hfind] at h2
        exact h2
      rw [hb]
      apply pairwise_cleanupBucket
      rw [sortByPub_def]
      exact pairwise_sortByKey (fun i : FeedItem => i.published) _
    · rw [findAssoc_AddItems_ne s url items now u2 heq] at hfind
      exact hinv u2 b hfind
  · intro s url items now t hage
    rw [storeBucketItems_AddItems, cleanupBucket, if_pos hage, sortByPub_def]
    exact filter_sortByKey (fun i : FeedItem => i.published)
      (fun i : FeedItem => decide (i.published = t)) _
      (by
        intro a b ha hb
        have ha2 := of_decide_eq_true ha
        have hb2 := of_decide_eq_true hb
        show a.published = b.published
        rw [ha2, hb2])

/-- C5 witness: the sortedness part applied to adding two out-of-order
records to the empty store, and the tie-stability part applied to two
records sharing a timestamp. -/
theorem C5_bucket_sorted_stable_witness :
    ([demoItem "a" 1, demoItem "b" 2] :
        List FeedItem).Pairwise (fun a c => a.published ≤ c.published)
    ∧ (storeBucketItems
          (AddItems emptyPS "u" [demoItem "p" 7, demoItem "q" 7] 0) "u").filter
        (fun i => decide (i.published = 7))
      = (storeBucketItems emptyPS "u"
          ++ addNew ((storeBucketItems emptyPS "u").map (fun i => i.id))
            [demoItem "p" 7, demoItem "q" 7]).filter
        (fun i => decide (i.published = 7)) := by
  constructor
  · have h := C5_bucket_sorted_stable.1 emptyPS "u"
      [demoItem "b" 2, demoItem "a" 1] 0 "u"
      { items := [demoItem "a" 1, demoItem "b" 2],
        meta := { url := "u", title := "F", updated := 0, etag := "",
                  lastFetch := 0 } }
      (fun u0 b0 h0 => Option.noConfusion h0) rfl
    exact h
  · exact C5_bucket_sorted_stable.2 emptyPS "u"
      [demoItem "p" 7, demoItem "q" 7] 0 7 (by decide)

/-- Store for the filter scenario: one bucket with items published
2023-01-01, 2023-02-01 and 2023-03-01 (dates encoded as `yyyymmdd`). -/
def store6 : PersistentStore :=
  { feeds := [("u",
      { items := [demoItem "j" 20230101, demoItem "f" 20230201,
                  demoItem "m" 20230301],
        meta := { url := "u", title := "F", updated := 0, etag := "",
                  lastFetch := 0 } })],
    maxAge := 0 }

/-- C6. `GetItems` agrees everywhere with the spec-worded function
`getItemsSpec` (a copy of the bucket's items restricted to `published ≥
since` when `since` is set, then the most recent `limit` entries — the tail
of the ascending sequence — when `limit > 0`); being a pure function of the
store, it has no side effects on it. Concretely, on the bucket published
2023-01-01 / 2023-02-01 / 2023-03-01 with `since = 2023-01-15` the result is
the last two entries. -/
theorem C6_getItems_filter_then_tail :
    (∀ (s : PersistentStore) (url : String) (limit since : Int),
      GetItems s url limit since = getItemsSpec s url limit since)
    ∧ GetItems store6 "u" 0 20230115
        = [demoItem "f" 20230201, demoItem "m" 20230301] := by
  constructor
  · intro s url limit since
    unfold GetItems getItemsSpec
    cases hfind : findAssoc s.feeds url with
    | none => rfl
    | some bucket =>
      simp only []
      have hfilter :
          bucket.items.filter
              (fun item => decide (¬ (since ≠ 0 ∧ item.published < since)))
            = (if since = 0 then bucket.items
               else bucket.items.filter
                 (fun item => decide (since ≤ item.published))) := by
        by_cases hs : since = 0
        · rw [if_pos hs]
          subst hs
          simp
        · rw [if_neg hs]
          apply List.filter_congr
          intro a ha
          simp [hs, not_lt]
      rw [hfilter]
      set kept :=
        (if since = 0 then bucket.items
         else bucket.items.filter
           (fun item => decide (since ≤ item.published))) with hkept
      by_cases h1 : 0 < limit
      · by_cases h2 : limit < (kept.length : Int)
        · simp [h1, h2]
        · have hle : (kept.length : Int) ≤ limit := not_lt.mp h2
          have hzero : kept.length - limit.toNat = 0 := by omega
          simp [h1, h2, hzero]
      · simp [h1]
  · rfl

/-- C7 amended. During `AddItems`, when `maxAge > 0`, age-based cleanup keeps
exactly the records published strictly after `now - maxAge`: a record
published exactly at the cutoff is removed, not retained. Cleanup is the
retention step applied to the sorted, deduplicated bucket inside `AddItems`
(the code has no count-based cap for it to precede). -/
theorem C7_cleanup_strictly_after_cutoff :
    (∀ (maxAge now : Int) (items : List FeedItem), 0 < maxAge →
      cleanupBucket maxAge now items
        = items.filter (fun item => decide (now - maxAge < item.published)))
    ∧ (∀ (s : PersistentStore) (url : String) (items : List FeedItem)
        (now : Int), 0 < s.maxAge →
      storeBucketItems (AddItems s url items now) url
        = (sortByPub (storeBucketItems s url
            ++ addNew ((storeBucketItems s url).map (fun i => i.id))
              items)).filter
            (fun item => decide (now - s.maxAge < item.published))) := by
  constructor
  · intro maxAge now items hage
    rw [cleanupBucket, if_neg (not_le.mpr hage)]
  · intro s url items now hage
    rw [storeBucketItems_AddItems, cleanupBucket, if_neg (not_le.mpr hage)]

/-- C7 amended witness: the exact-filter characterisation applied at the
cutoff boundary (`maxAge = 10`, `now = 100`, items published 90 and 95), and
the `AddItems` placement applied on a store with `maxAge = 10`. -/
theorem C7_cleanup_strictly_after_cutoff_witness :
    cleanupBucket 10 100 [demoItem "x" 90, demoItem "y" 95]
        = [demoItem "x" 90, demoItem "y" 95].filter
            (fun item => decide (100 - 10 < item.published))
    ∧ storeBucketItems
          (AddItems { feeds := [], maxAge := 10 } "u" [demoItem "y" 95] 100) "u"
        = (sortByPub (storeBucketItems { feeds := [], maxAge := 10 } "u"
            ++ addNew
              ((storeBucketItems { feeds := [], maxAge := 10 } "u").map
                (fun i => i.id))
              [demoItem "y" 95])).filter
            (fun item => decide (100 - (10 : Int) < item.published)) := by
  constructor
  · exact C7_cleanup_strictly_after_cutoff.1 10 100
      [demoItem "x" 90, demoItem "y" 95] (by decide)
  · exact C7_cleanup_strictly_after_cutoff.2 { feeds := [], maxAge := 10 }
      "u" [demoItem "y" 95] 100 (by decide)

/-- C8. Round-trip: serialising the store (`save` — the bucket map written
with its keys in sorted order, as Go's `json.Marshal` does for maps) and
constructing a store from that representation succeeds and yields a store
whose bucket under every source identifier is identical — the same records
in the same order — to the original's. -/
theorem C8_save_load_roundtrip :
    ∀ (s : PersistentStore) (url : String),
      NewPersistentStore (DiskFile.valid (save s)) s.maxAge
          = Except.ok { feeds := save s, maxAge := s.maxAge }
        ∧ findAssoc (save s) url = findAssoc s.feeds url := by
  intro s url
  exact ⟨rfl, findAssoc_sortByKey_fst s.feeds url⟩

end ToolsPC
